import Mathlib

/-!
Shallow embedding of the TruffleRuby C-extension string bridge
(`src/main/c/cext/string.c`): construction, mutation (append / resize /
set-length / expand), and encoding association / conversion.

A managed string is modelled as a `Handle`: the backing storage (a byte
list whose length is the capacity), the logical length, the associated
encoding, the cached coderange classification, and the legacy taint flag.
C `long` arguments are modelled as `Int`; fallible operations return
`Except Err Handle`, where raising via `rb_raise` corresponds to the
`.error` constructor (control returns to the caller and the receiver
keeps the state it had at the moment of the raise).

Operations whose body lives in `string.c` are translated from it
line by line.  Operations reached only through `polyglot_invoke` into the
managed runtime are not part of the C file; those are modelled from the
specification and carry a doc comment starting with `Modelled from the
spec:`.
-/

namespace TRString

inductive Enc where
  | usascii
  | ascii8bit
  | utf8
  | latin1
deriving DecidableEq

/-- US-ASCII-compatibility classification of the modelled encodings:
US-ASCII, UTF-8 and Latin-1 are ASCII-compatible, raw binary is taken as
the representative non-compatible tag. -/
def Enc.asciiCompat : Enc → Bool
  | .usascii => true
  | .utf8 => true
  | .latin1 => true
  | .ascii8bit => false

inductive Coderange where
  | unknown
  | sevenBit
  | validIn
  | broken
deriving DecidableEq

structure Handle where
  storage : List Nat
  len : Nat
  enc : Enc
  coderange : Coderange
  tainted : Bool
deriving DecidableEq

/-- Capacity of a handle: the size of the backing storage
(`rb_str_capacity`). -/
def capacity (h : Handle) : Nat := h.storage.length

/-- The logical content of a handle: the first `len` bytes of the
backing storage (what `materialize` exposes). -/
def content (h : Handle) : List Nat := h.storage.take h.len

inductive Err where
  | invalidArgument (msg : String)
  | bufferOverflow (requested : Int) (capacity : Int)
  | encodingConversionError (msg : String)
deriving DecidableEq

def INT_MAX : Int := 2147483647

def isErr : Except Err Handle → Bool
  | .error _ => true
  | .ok _ => false

def resLen : Except Err Handle → Option Nat
  | .ok h => some h.len
  | .error _ => none

def resCapacity : Except Err Handle → Option Nat
  | .ok h => some (capacity h)
  | .error _ => none

def resContent : Except Err Handle → Option (List Nat)
  | .ok h => some (content h)
  | .error _ => none

def resCR : Except Err Handle → Option Coderange
  | .ok h => some h.coderange
  | .error _ => none

def resEnc : Except Err Handle → Option Enc
  | .ok h => some h.enc
  | .error _ => none

/-- Modelled from the spec: the runtime primitive invoked as
`polyglot_invoke(RUBY_CEXT, "rb_str_resize", ...)` from `rb_str_resize`
(string.c:158).  A requested length below the valid range fails, per the
spec's resize contract, with a buffer-overflow error carrying both the
requested length and the actual capacity.  For nonnegative requests the
C file itself documents the behaviour: `rb_str_cat` grows storage to
`oldLength + length` through it (string.c:108) and
`rb_str_modify_expand` "resizes the native buffer" through it
(string.c:341).  So the model grows the backing storage when the
requested length exceeds the capacity (new bytes zero-initialized),
keeps the storage on shrink (shrinking never deallocates eagerly), sets
the logical length, and clears the coderange (string.c:109-110). -/
def rb_str_resize (h : Handle) (n : Int) : Except Err Handle :=
  if n < 0 then
    .error (.bufferOverflow n (capacity h))
  else
    let nn := n.toNat
    let storage' :=
      if nn ≤ h.storage.length then h.storage
      else h.storage ++ List.replicate (nn - h.storage.length) 0
    .ok { h with storage := storage', len := nn, coderange := .unknown }

/-- `rb_str_set_len` (string.c:142-148): rejects lengths outside
`[0, capacity]` with a "probable buffer overflow" error carrying the
requested length and the capacity; otherwise delegates to the runtime.
The delegated part is modelled from the spec: it publishes the new
logical extent without touching the bytes. -/
def rb_str_set_len (h : Handle) (length : Int) : Except Err Handle :=
  let cap : Int := capacity h
  if length > cap ∨ length < 0 then
    .error (.bufferOverflow length cap)
  else
    .ok { h with len := length.toNat }

/-- `memcpy(dest + off, src, src.length)` on byte lists. -/
def writeBytes (dest : List Nat) (off : Nat) (src : List Nat) : List Nat :=
  dest.take off ++ src ++ dest.drop (off + src.length)

/-- `rb_str_cat` (string.c:100-113): zero length short-circuits,
negative length raises, otherwise resize to `old_length + length` and
copy the bytes at offset `old_length`.  A null byte pointer is `none`. -/
def rb_str_cat (h : Handle) (toConcat : Option (List Nat)) (length : Int) : Except Err Handle :=
  if length = 0 then
    .ok h
  else if length < 0 then
    .error (.invalidArgument "negative string size (or size too big)")
  else
    let oldLength := h.len
    match rb_str_resize h ((oldLength : Int) + length) with
    | .error e => .error e
    | .ok h1 =>
      .ok { h1 with storage := writeBytes h1.storage oldLength ((toConcat.getD []).take length.toNat) }

/-- `rb_str_modify_expand` (string.c:328-346): guards against negative
and overflowing expansion, then resizes the native buffer to
`len + expand` and restores the logical length, clearing the
coderange. -/
def rb_str_modify_expand (h : Handle) (expand : Int) : Except Err Handle :=
  let len := h.len
  if expand < 0 then
    .error (.invalidArgument "negative expanding string size")
  else if expand > INT_MAX - (len : Int) then
    .error (.invalidArgument "string size too big")
  else if expand > 0 then
    match rb_str_resize h ((len : Int) + expand) with
    | .error e => .error e
    | .ok h1 =>
      match rb_str_set_len h1 (len : Int) with
      | .error e => .error e
      | .ok h2 => .ok { h2 with coderange := .unknown }
  else
    .ok { h with coderange := .unknown }

/-- Modelled from the spec: the runtime primitive `rb_str_new_nul`
invoked from `rb_str_new` (string.c:62) — allocates `length`
zero-initialized bytes; the fresh handle's coderange starts unknown. -/
def rb_str_new_nul (length : Nat) : Handle :=
  { storage := List.replicate length 0, len := length, enc := .ascii8bit,
    coderange := .unknown, tainted := false }

/-- Modelled from the spec: the runtime primitive `rb_str_new_native`
invoked from `rb_str_new` (string.c:64) — copies exactly `length` bytes
from the pointer; the fresh handle's coderange starts unknown. -/
def rb_str_new_native (bytes : List Nat) (length : Nat) : Handle :=
  { storage := bytes.take length, len := length, enc := .ascii8bit,
    coderange := .unknown, tainted := false }

/-- `rb_str_new` (string.c:56-66): negative length raises, a null
pointer allocates zero-initialized bytes, otherwise the bytes are
copied. -/
def rb_str_new (ptr : Option (List Nat)) (length : Int) : Except Err Handle :=
  if length < 0 then
    .error (.invalidArgument "negative string size (or size too big)")
  else
    match ptr with
    | none => .ok (rb_str_new_nul length.toNat)
    | some bytes => .ok (rb_str_new_native bytes length.toNat)

/-- Modelled from the spec: `rb_enc_str_new` (declared outside this C
file) — `newFromBytes` with an explicit encoding: construct as
`rb_str_new` and associate the given encoding. -/
def rb_enc_str_new (ptr : Option (List Nat)) (length : Int) (enc : Enc) : Except Err Handle :=
  match rb_str_new ptr length with
  | .error e => .error e
  | .ok h => .ok { h with enc := enc }

/-- `rb_tainted_str_new_with_enc` (string.c:193-198): construct with the
encoding, then set the taint flag. -/
def rb_tainted_str_new_with_enc (ptr : Option (List Nat)) (length : Int) (enc : Enc) : Except Err Handle :=
  match rb_enc_str_new ptr length enc with
  | .error e => .error e
  | .ok h => .ok { h with tainted := true }

def is7bit (bytes : List Nat) : Bool := bytes.all (fun b => decide (b < 128))

/-- Modelled from the spec: the encoding engine's coderange scan
(`rb_enc_str_coderange`, declared outside this C file): 7-bit-clean byte
content classifies as `sevenBit`; anything else is some non-7-bit
classification (which one does not matter to the bridge's tests, only
that it differs from `sevenBit`). -/
def rb_enc_str_coderange (h : Handle) : Coderange :=
  if is7bit (content h) then .sevenBit else .validIn

/-- `rb_enc_associate` / `rb_enc_associate_index`: reassign the handle's
encoding tag. -/
def rb_enc_associate (h : Handle) (e : Enc) : Handle := { h with enc := e }

/-- Modelled from the spec: the external transcoding engine invoked as
`polyglot_invoke(RUBY_CEXT, "rb_str_conv_enc_opts", ...)` from
`rb_str_conv_enc_opts` (string.c:190), represented as an injected
service interface.  The bridge only forwards the string, source and
target encodings, and the `ecflags`/`ecopts` arguments opaquely; the
transcoding pass may produce a new handle or fail with an
encoding-conversion error on invalid or undefined byte sequences —
which sequences those are is owned by the engine, so theorems about the
bridge quantify over every engine. -/
structure TranscodeEngine where
  conv : Handle → Enc → Enc → Int → Option Nat → Except Err Handle

/-- An engine instance that rejects every conversion, used to
instantiate engine-polymorphic theorems at paths that never consult the
engine. -/
def failEngine : TranscodeEngine :=
  ⟨fun _ _ _ _ _ => .error (.encodingConversionError "invalid byte sequence")⟩

/-- `rb_str_conv_enc_opts` (string.c:186-191): null target or equal
source and target (source defaulting to the string's own encoding)
return the string itself; otherwise the transcoding engine runs. -/
def rb_str_conv_enc_opts (eng : TranscodeEngine) (str : Handle) (fromE toE : Option Enc)
    (ecflags : Int) (ecopts : Option Nat) : Except Err Handle :=
  match toE with
  | none => .ok str
  | some tov =>
    let fromv := fromE.getD str.enc
    if fromv = tov then .ok str
    else eng.conv str fromv tov ecflags ecopts

/-- `rb_str_conv_enc` (string.c:182-184). -/
def rb_str_conv_enc (eng : TranscodeEngine) (str : Handle) (fromE toE : Option Enc) :
    Except Err Handle :=
  rb_str_conv_enc_opts eng str fromE toE 0 none

/-- `rb_external_str_with_enc` (string.c:207-215): if the external
encoding is US-ASCII and the content is not 7-bit-clean, associate raw
binary; otherwise associate the external encoding and convert to the
default internal encoding (`dint`, `none` when unset). -/
def rb_external_str_with_enc (eng : TranscodeEngine) (dint : Option Enc) (str : Handle)
    (eenc : Enc) : Except Err Handle :=
  if eenc = .usascii ∧ rb_enc_str_coderange str ≠ .sevenBit then
    .ok (rb_enc_associate str .ascii8bit)
  else
    rb_str_conv_enc eng (rb_enc_associate str eenc) (some eenc) dint

/-- `rb_external_str_new_with_enc` (string.c:200-205). -/
def rb_external_str_new_with_enc (eng : TranscodeEngine) (dint : Option Enc)
    (ptr : Option (List Nat)) (len : Int) (eenc : Enc) : Except Err Handle :=
  match rb_tainted_str_new_with_enc ptr len eenc with
  | .error e => .error e
  | .ok str => rb_external_str_with_enc eng dint str eenc

/-- Process-wide encoding configuration (spec section 4.1): the
default-external, default-internal, locale and filesystem encodings,
read by the constructors as globals. -/
structure EncConfig where
  externalEnc : Enc
  internalEnc : Option Enc
  localeEnc : Enc
  filesystemEnc : Enc
deriving DecidableEq

/-- `rb_external_str_new` (string.c:217-219). -/
def rb_external_str_new (eng : TranscodeEngine) (cfg : EncConfig) (ptr : Option (List Nat))
    (len : Int) : Except Err Handle :=
  rb_external_str_new_with_enc eng cfg.internalEnc ptr len cfg.externalEnc

/-- `rb_locale_str_new` (string.c:225-227). -/
def rb_locale_str_new (eng : TranscodeEngine) (cfg : EncConfig) (ptr : Option (List Nat))
    (len : Int) : Except Err Handle :=
  rb_external_str_new_with_enc eng cfg.internalEnc ptr len cfg.localeEnc

/-- `rb_filesystem_str_new` (string.c:233-235). -/
def rb_filesystem_str_new (eng : TranscodeEngine) (cfg : EncConfig) (ptr : Option (List Nat))
    (len : Int) : Except Err Handle :=
  rb_external_str_new_with_enc eng cfg.internalEnc ptr len cfg.filesystemEnc

/-- Observing a fallible call from the caller's side: `rb_raise`
transfers control back to the caller, which still holds the receiver in
exactly the state it had when the raise happened. -/
def tryMut (op : Handle → Except Err Handle) (h : Handle) : Handle × Option Err :=
  match op h with
  | .ok h2 => (h2, none)
  | .error e => (h, some e)

lemma resize_nonneg_eq (h : Handle) (n : Int) (hn : 0 ≤ n) :
    rb_str_resize h n =
      .ok { h with
        storage := if n.toNat ≤ capacity h then h.storage
                   else h.storage ++ List.replicate (n.toNat - capacity h) 0,
        len := n.toNat, coderange := .unknown } := by
  simp only [rb_str_resize, if_neg (not_lt.mpr hn), capacity]

lemma set_len_ok_eq (h : Handle) (n : Int) (h0 : 0 ≤ n) (hc : n ≤ (capacity h : Int)) :
    rb_str_set_len h n = .ok { h with len := n.toNat } := by
  have hcond : ¬ (n > ((capacity h : Nat) : Int) ∨ n < 0) := by omega
  simp only [rb_str_set_len, if_neg hcond]

lemma take_writeBytes (s src : List Nat) (off : Nat) :
    (writeBytes s off src).take (off + src.length) = s.take off ++ src := by
  rw [writeBytes, List.take_append_eq_append_take]
  have hx : (s.take off ++ src).length ≤ off + src.length := by
    simp only [List.length_append, List.length_take]
    omega
  rw [List.take_of_length_le hx]
  have hd : (s.drop (off + src.length)).take (off + src.length - (s.take off ++ src).length)
      = [] := by
    rcases le_or_lt off s.length with hle | hlt
    · have hz : off + src.length - (s.take off ++ src).length = 0 := by
        simp only [List.length_append, List.length_take]
        omega
      rw [hz, List.take_zero]
    · have hz : s.drop (off + src.length) = [] := by
        apply List.drop_eq_nil_of_le
        omega
      rw [hz, List.take_nil]
  rw [hd, List.append_nil]

/-- Claim C7: for every handle and any byte pointer (including null),
appending zero bytes is a no-op, returning the same handle with length,
capacity, content and coderange untouched, without allocating. -/
theorem rb_str_cat_zero_noop (h : Handle) (b : Option (List Nat)) :
    rb_str_cat h b 0 = .ok h := rfl

theorem rb_str_cat_zero_noop_witness :
    rb_str_cat ⟨[1, 2], 2, .utf8, .sevenBit, false⟩ none 0 =
      .ok ⟨[1, 2], 2, .utf8, .sevenBit, false⟩ :=
  rb_str_cat_zero_noop ⟨[1, 2], 2, .utf8, .sevenBit, false⟩ none

/-- Claim C6: `rb_str_set_len` with a length below zero or above the
capacity fails with a buffer-overflow error carrying both the requested
length and the actual capacity; with a length in `[0, capacity]` it sets
the logical length and leaves the storage bytes, encoding and coderange
untouched. -/
theorem rb_str_set_len_spec (h : Handle) (n : Int) :
    ((n < 0 ∨ n > (capacity h : Int)) →
      rb_str_set_len h n = .error (.bufferOverflow n (capacity h))) ∧
    (0 ≤ n → n ≤ (capacity h : Int) → rb_str_set_len h n = .ok { h with len := n.toNat }) := by
  refine ⟨fun hn => ?_, fun h0 hc => set_len_ok_eq h n h0 hc⟩
  have hcond : (n > ((capacity h : Nat) : Int) ∨ n < 0) := hn.symm
  simp only [rb_str_set_len, if_pos hcond]

theorem rb_str_set_len_spec_witness :
    (((2 : Int) < 0 ∨ (2 : Int) > (capacity ⟨[0], 0, .ascii8bit, .unknown, false⟩ : Int)) ∧
      rb_str_set_len ⟨[0], 0, .ascii8bit, .unknown, false⟩ 2 =
        .error (.bufferOverflow 2 (capacity ⟨[0], 0, .ascii8bit, .unknown, false⟩))) ∧
    rb_str_set_len ⟨[0], 0, .ascii8bit, .unknown, false⟩ 1 =
      .ok ⟨[0], 1, .ascii8bit, .unknown, false⟩ :=
  ⟨⟨by decide, (rb_str_set_len_spec ⟨[0], 0, .ascii8bit, .unknown, false⟩ 2).1 (by decide)⟩,
    (rb_str_set_len_spec ⟨[0], 0, .ascii8bit, .unknown, false⟩ 1).2 (by decide) (by decide)⟩

/-- Claim C9: `rb_str_conv_enc_opts` returns the very same handle —
without consulting the transcoding engine, so for every engine —
whenever the target encoding is null, or whenever the source encoding
(defaulting to the string's own encoding when null) equals the target
encoding. -/
theorem rb_str_conv_enc_opts_noop (eng : TranscodeEngine) (str : Handle)
    (fromE toE : Option Enc) (fl : Int) (ops : Option Nat)
    (hno : toE = none ∨ toE = some (fromE.getD str.enc)) :
    rb_str_conv_enc_opts eng str fromE toE fl ops = .ok str := by
  rcases hno with hn | hs
  · subst hn; rfl
  · subst hs
    simp [rb_str_conv_enc_opts]

theorem rb_str_conv_enc_opts_noop_witness :
    rb_str_conv_enc_opts failEngine ⟨[], 0, .utf8, .unknown, false⟩ none (some .utf8) 0 none =
      .ok ⟨[], 0, .utf8, .unknown, false⟩ :=
  rb_str_conv_enc_opts_noop failEngine ⟨[], 0, .utf8, .unknown, false⟩ none (some .utf8) 0
    none (Or.inr rfl)

/-- Claim C4: `rb_enc_str_new` fails with an invalid-argument error for
every negative length; for every nonnegative length it succeeds: a null
pointer yields `length` zero-initialized bytes, otherwise the first
`length` input bytes are copied, and the new handle's coderange is
unknown. -/
theorem rb_enc_str_new_spec (b : List Nat) (length : Int) (e : Enc) :
    (length < 0 →
      rb_enc_str_new (some b) length e =
        .error (.invalidArgument "negative string size (or size too big)") ∧
      rb_enc_str_new none length e =
        .error (.invalidArgument "negative string size (or size too big)")) ∧
    (0 ≤ length →
      resContent (rb_enc_str_new none length e) = some (List.replicate length.toNat 0) ∧
      resLen (rb_enc_str_new none length e) = some length.toNat ∧
      resCR (rb_enc_str_new none length e) = some .unknown ∧
      resContent (rb_enc_str_new (some b) length e) = some (b.take length.toNat) ∧
      resLen (rb_enc_str_new (some b) length e) = some length.toNat ∧
      resCR (rb_enc_str_new (some b) length e) = some .unknown) := by
  constructor
  · intro hneg
    simp [rb_enc_str_new, rb_str_new, if_pos hneg]
  · intro h0
    simp [rb_enc_str_new, rb_str_new, if_neg (not_lt.mpr h0), rb_str_new_nul,
      rb_str_new_native, resContent, resLen, resCR, content, List.take_take,
      List.take_replicate, Nat.min_self]

theorem rb_enc_str_new_spec_witness :
    (rb_enc_str_new (some [7, 8]) (-1) .utf8 =
      .error (.invalidArgument "negative string size (or size too big)")) ∧
    resContent (rb_enc_str_new (some [7, 8]) 2 .utf8) = some [7, 8] :=
  ⟨((rb_enc_str_new_spec [7, 8] (-1) .utf8).1 (by decide)).1,
    ((rb_enc_str_new_spec [7, 8] 2 .utf8).2 (by decide)).2.2.2.1⟩

/-- Counterexample to claim C1 as stated: on the handle with empty
storage (capacity 0), resizing to `capacity + 1 = 1` succeeds with
length 1 — it does not fail with a buffer-overflow error. -/
theorem rb_str_resize_over_capacity_succeeds :
    capacity ⟨[], 0, .ascii8bit, .unknown, false⟩ = 0 ∧
    isErr (rb_str_resize ⟨[], 0, .ascii8bit, .unknown, false⟩ 1) = false ∧
    resLen (rb_str_resize ⟨[], 0, .ascii8bit, .unknown, false⟩ 1) = some 1 := by
  decide

/-- Claim C1 (amended): `rb_str_resize` with `n < 0` fails with a
buffer-overflow error carrying both the requested length and the actual
capacity; for every nonnegative `n` it succeeds — in particular for
`0 ≤ n ≤ capacity` — and afterwards the length is `n`, the capacity
growing to `n` when `n` exceeds it and staying unchanged otherwise. -/
theorem rb_str_resize_amended_spec (h : Handle) (n : Int) :
    (n < 0 →
      rb_str_resize h n = .error (.bufferOverflow n (capacity h))) ∧
    (0 ≤ n →
      isErr (rb_str_resize h n) = false ∧
      resLen (rb_str_resize h n) = some n.toNat ∧
      resCapacity (rb_str_resize h n) = some (max (capacity h) n.toNat)) := by
  constructor
  · intro hneg
    simp only [rb_str_resize, if_pos hneg]
  · intro h0
    rw [resize_nonneg_eq h n h0]
    refine ⟨rfl, rfl, ?_⟩
    simp only [resCapacity, capacity]
    rcases le_or_lt n.toNat h.storage.length with hle | hlt
    · rw [if_pos hle]
      simp only [Option.some.injEq]
      omega
    · rw [if_neg (not_le.mpr hlt)]
      simp only [List.length_append, List.length_replicate, Option.some.injEq]
      omega

theorem rb_str_resize_amended_spec_witness :
    rb_str_resize ⟨[0, 0], 1, .ascii8bit, .unknown, false⟩ (-1) =
      .error (.bufferOverflow (-1) 2) ∧
    resLen (rb_str_resize ⟨[0, 0], 1, .ascii8bit, .unknown, false⟩ 2) = some 2 :=
  ⟨(rb_str_resize_amended_spec ⟨[0, 0], 1, .ascii8bit, .unknown, false⟩ (-1)).1 (by decide),
    ((rb_str_resize_amended_spec ⟨[0, 0], 1, .ascii8bit, .unknown, false⟩ 2).2 (by decide)).2.1⟩

lemma modify_expand_pos_eq (h : Handle) (k : Int) (hk : 0 < k)
    (hkmax : k ≤ INT_MAX - (h.len : Int)) :
    rb_str_modify_expand h k =
      .ok { h with
        storage := if h.len + k.toNat ≤ capacity h then h.storage
                   else h.storage ++ List.replicate (h.len + k.toNat - capacity h) 0,
        coderange := .unknown } := by
  have h1 : ¬ k < 0 := by omega
  have h2 : ¬ k > INT_MAX - (h.len : Int) := by omega
  have h3 : (0 : Int) ≤ (h.len : Int) + k := by omega
  have hnn : ((h.len : Int) + k).toNat = h.len + k.toNat := by omega
  rw [rb_str_modify_expand]
  simp only [if_neg h1, if_neg h2, if_pos hk]
  rw [resize_nonneg_eq h _ h3, hnn]
  have hcap : (h.len : Int) ≤
      (capacity { h with
        storage := if h.len + k.toNat ≤ capacity h then h.storage
                   else h.storage ++ List.replicate (h.len + k.toNat - capacity h) 0,
        len := h.len + k.toNat, coderange := Coderange.unknown } : Int) := by
    simp only [capacity]
    rcases le_or_lt (h.len + k.toNat) h.storage.length with hle | hlt
    · rw [if_pos hle]
      omega
    · rw [if_neg (not_le.mpr hlt)]
      simp only [List.length_append, List.length_replicate]
      omega
  dsimp only
  rw [set_len_ok_eq _ _ (by omega) hcap]
  simp

/-- Claim C8: `rb_str_modify_expand` fails with an invalid-argument
error ("negative expanding string size") for every negative expansion,
fails with an invalid-argument error ("string size too big") for every
expansion over `INT_MAX - length`, and succeeds for every other
nonnegative expansion. -/
theorem rb_str_modify_expand_guards (h : Handle) (k : Int) :
    (k < 0 →
      rb_str_modify_expand h k = .error (.invalidArgument "negative expanding string size")) ∧
    (k > INT_MAX - (h.len : Int) → 0 ≤ k →
      rb_str_modify_expand h k = .error (.invalidArgument "string size too big")) ∧
    (0 ≤ k → k ≤ INT_MAX - (h.len : Int) → isErr (rb_str_modify_expand h k) = false) := by
  refine ⟨fun hneg => ?_, fun hover h0 => ?_, fun h0 hmax => ?_⟩
  · rw [rb_str_modify_expand]
    simp only [if_pos hneg]
  · rw [rb_str_modify_expand]
    simp only [if_neg (by omega : ¬ k < 0), if_pos hover]
  · rcases lt_or_eq_of_le h0 with hpos | hzero
    · rw [modify_expand_pos_eq h k hpos hmax]
      rfl
    · rw [rb_str_modify_expand]
      simp only [if_neg (by omega : ¬ k < 0), if_neg (by omega : ¬ k > INT_MAX - (h.len : Int)),
        if_neg (by omega : ¬ k > 0)]
      rfl

theorem rb_str_modify_expand_guards_witness :
    rb_str_modify_expand ⟨[0], 1, .ascii8bit, .unknown, false⟩ (-1) =
      .error (.invalidArgument "negative expanding string size") ∧
    rb_str_modify_expand ⟨[0], 1, .ascii8bit, .unknown, false⟩ 2147483647 =
      .error (.invalidArgument "string size too big") ∧
    isErr (rb_str_modify_expand ⟨[0], 1, .ascii8bit, .unknown, false⟩ 3) = false :=
  ⟨(rb_str_modify_expand_guards ⟨[0], 1, .ascii8bit, .unknown, false⟩ (-1)).1 (by decide),
    (rb_str_modify_expand_guards ⟨[0], 1, .ascii8bit, .unknown, false⟩ 2147483647).2.1
      (by decide) (by decide),
    (rb_str_modify_expand_guards ⟨[0], 1, .ascii8bit, .unknown, false⟩ 3).2.2
      (by decide) (by decide)⟩

/-- Counterexample to claim C2 as stated: on a handle with length 0 and
capacity 1, expanding by 1 byte leaves the capacity at 1, which is not
`capacity_before + 1 = 2` — the operation only guarantees room for
`length + extraBytes` bytes, reusing existing spare capacity. -/
theorem rb_str_modify_expand_capacity_counterexample :
    capacity ⟨[0], 0, .ascii8bit, .unknown, false⟩ = 1 ∧
    resCapacity (rb_str_modify_expand ⟨[0], 0, .ascii8bit, .unknown, false⟩ 1) = some 1 ∧
    ¬ (capacity ⟨[0], 0, .ascii8bit, .unknown, false⟩ + 1 ≤ 1) := by
  decide

/-- Claim C2 (amended): for every well-formed handle and every
`k ≥ 0` that passes the overflow guard, `rb_str_modify_expand` succeeds,
leaves the logical length unchanged, clears the coderange to unknown,
and afterwards the capacity is `max(capacity_before, length + k)` — in
particular at least `length + k`, so `k` extra bytes beyond the current
content fit. -/
theorem rb_str_modify_expand_frame (h : Handle) (k : Int)
    (hinv : h.len ≤ h.storage.length) (hk0 : 0 ≤ k)
    (hkmax : k ≤ INT_MAX - (h.len : Int)) :
    resLen (rb_str_modify_expand h k) = some h.len ∧
    resCR (rb_str_modify_expand h k) = some .unknown ∧
    resCapacity (rb_str_modify_expand h k) = some (max (capacity h) (h.len + k.toNat)) ∧
    h.len + k.toNat ≤ (resCapacity (rb_str_modify_expand h k)).getD 0 := by
  rcases lt_or_eq_of_le hk0 with hpos | hzero
  · rw [modify_expand_pos_eq h k hpos hkmax]
    refine ⟨rfl, rfl, ?_, ?_⟩
    · simp only [resCapacity, capacity]
      rcases le_or_lt (h.len + k.toNat) h.storage.length with hle | hlt
      · rw [if_pos hle]
        simp only [Option.some.injEq]
        omega
      · rw [if_neg (not_le.mpr hlt)]
        simp only [List.length_append, List.length_replicate, Option.some.injEq]
        omega
    · simp only [resCapacity, capacity]
      rcases le_or_lt (h.len + k.toNat) h.storage.length with hle | hlt
      · rw [if_pos hle]
        simp only [Option.getD_some]
        omega
      · rw [if_neg (not_le.mpr hlt)]
        simp only [List.length_append, List.length_replicate, Option.getD_some]
        omega
  · rw [rb_str_modify_expand]
    simp only [if_neg (by omega : ¬ k < 0), if_neg (by omega : ¬ k > INT_MAX - (h.len : Int)),
      if_neg (by omega : ¬ k > 0)]
    refine ⟨rfl, rfl, ?_, ?_⟩
    · simp only [resCapacity, capacity, Option.some.injEq]
      omega
    · simp only [resCapacity, capacity, Option.getD_some]
      omega

theorem rb_str_modify_expand_frame_witness :
    resLen (rb_str_modify_expand ⟨[7], 1, .ascii8bit, .validIn, false⟩ 2) = some 1 ∧
    resCR (rb_str_modify_expand ⟨[7], 1, .ascii8bit, .validIn, false⟩ 2) = some .unknown ∧
    resCapacity (rb_str_modify_expand ⟨[7], 1, .ascii8bit, .validIn, false⟩ 2) = some 3 ∧
    1 + 2 ≤ (resCapacity (rb_str_modify_expand ⟨[7], 1, .ascii8bit, .validIn, false⟩ 2)).getD 0 :=
  rb_str_modify_expand_frame ⟨[7], 1, .ascii8bit, .validIn, false⟩ 2 (by decide) (by decide)
    (by decide)

/-- Claim C5: for every well-formed handle and positive length of
available input bytes, `rb_str_cat` grows the string so that the new
length is `oldLength + length`, the content is the old content followed
by the first `length` appended bytes (original prefix unchanged), and
the coderange is cleared to unknown; for every negative length it fails
with an invalid-argument error. -/
theorem rb_str_cat_spec (h : Handle) (b : List Nat) (length : Int)
    (hinv : h.len ≤ h.storage.length) :
    (0 < length → length.toNat ≤ b.length →
      resLen (rb_str_cat h (some b) length) = some (h.len + length.toNat) ∧
      resCR (rb_str_cat h (some b) length) = some .unknown ∧
      resContent (rb_str_cat h (some b) length) = some (content h ++ b.take length.toNat)) ∧
    (length < 0 →
      rb_str_cat h (some b) length =
        .error (.invalidArgument "negative string size (or size too big)")) := by
  constructor
  · intro hpos hb
    have hne : ¬ length = 0 := by omega
    have hneg : ¬ length < 0 := by omega
    have h3 : (0 : Int) ≤ (h.len : Int) + length := by omega
    have hnn : ((h.len : Int) + length).toNat = h.len + length.toNat := by omega
    rw [rb_str_cat]
    simp only [if_neg hne, if_neg hneg]
    rw [resize_nonneg_eq h _ h3, hnn]
    dsimp only
    refine ⟨rfl, rfl, ?_⟩
    simp only [resContent, content, Option.some.injEq, Option.getD_some]
    have hlensrc : ((b.take length.toNat).length) = length.toNat := by
      simp only [List.length_take]
      omega
    have := take_writeBytes
      (if h.len + length.toNat ≤ capacity h then h.storage
       else h.storage ++ List.replicate (h.len + length.toNat - capacity h) 0)
      (b.take length.toNat) h.len
    rw [hlensrc] at this
    rw [this]
    congr 1
    rcases le_or_lt (h.len + length.toNat) (capacity h) with hle | hlt
    · rw [if_pos hle]
    · rw [if_neg (not_le.mpr hlt), List.take_append_eq_append_take]
      have hz : h.len - h.storage.length = 0 := by omega
      rw [hz, List.take_zero, List.append_nil]
  · intro hneg
    have hne : ¬ length = 0 := by omega
    rw [rb_str_cat]
    simp only [if_neg hne, if_pos hneg]

theorem rb_str_cat_spec_witness :
    resLen (rb_str_cat ⟨[1], 1, .ascii8bit, .sevenBit, false⟩ (some [2, 3]) 2) = some 3 ∧
    resCR (rb_str_cat ⟨[1], 1, .ascii8bit, .sevenBit, false⟩ (some [2, 3]) 2) = some .unknown ∧
    resContent (rb_str_cat ⟨[1], 1, .ascii8bit, .sevenBit, false⟩ (some [2, 3]) 2) =
      some [1, 2, 3] :=
  (rb_str_cat_spec ⟨[1], 1, .ascii8bit, .sevenBit, false⟩ [2, 3] 2 (by decide)).1
    (by decide) (by decide)

lemma tryMut_of_isErr (op : Handle → Except Err Handle) (h : Handle)
    (he : isErr (op h) = true) :
    (tryMut op h).1 = h ∧ (tryMut op h).2.isSome = true := by
  rcases hop : op h with e | h2
  · simp [tryMut, hop]
  · rw [hop] at he
    simp [isErr] at he

/-- Claim C10: each mutating operation that rejects its arguments does
so before touching the handle: a negative-length append, a negative or
overflowing expand, and an out-of-range set-length all raise with the
caller still holding the handle in exactly its pre-call state. -/
theorem mutation_reject_atomic (h : Handle) (b : Option (List Nat)) (len k n : Int)
    (hlen : len < 0) (hk : k < 0 ∨ k > INT_MAX - (h.len : Int))
    (hn : n < 0 ∨ n > (capacity h : Int)) :
    tryMut (fun s => rb_str_cat s b len) h =
      (h, some (Err.invalidArgument "negative string size (or size too big)")) ∧
    (tryMut (fun s => rb_str_modify_expand s k) h).1 = h ∧
    (tryMut (fun s => rb_str_modify_expand s k) h).2.isSome = true ∧
    tryMut (fun s => rb_str_set_len s n) h = (h, some (Err.bufferOverflow n (capacity h))) := by
  have hexp : isErr (rb_str_modify_expand h k) = true := by
    rw [rb_str_modify_expand]
    by_cases h1 : k < 0
    · simp only [if_pos h1, isErr]
    · have h2 : k > INT_MAX - (h.len : Int) := by omega
      simp only [if_neg h1, if_pos h2, isErr]
  obtain ⟨he1, he2⟩ := tryMut_of_isErr (fun s => rb_str_modify_expand s k) h hexp
  refine ⟨?_, he1, he2, ?_⟩
  · have hne : ¬ len = 0 := by omega
    simp only [tryMut, rb_str_cat, if_neg hne, if_pos hlen]
  · have hcond : n > ((capacity h : Nat) : Int) ∨ n < 0 := hn.symm
    simp only [tryMut, rb_str_set_len, if_pos hcond]

theorem mutation_reject_atomic_witness :
    tryMut (fun s => rb_str_cat s none (-1)) ⟨[9], 1, .utf8, .sevenBit, false⟩ =
      (⟨[9], 1, .utf8, .sevenBit, false⟩,
        some (Err.invalidArgument "negative string size (or size too big)")) ∧
    (tryMut (fun s => rb_str_modify_expand s (-1)) ⟨[9], 1, .utf8, .sevenBit, false⟩).1 =
      ⟨[9], 1, .utf8, .sevenBit, false⟩ ∧
    (tryMut (fun s => rb_str_modify_expand s (-1)) ⟨[9], 1, .utf8, .sevenBit, false⟩).2.isSome
      = true ∧
    tryMut (fun s => rb_str_set_len s 5) ⟨[9], 1, .utf8, .sevenBit, false⟩ =
      (⟨[9], 1, .utf8, .sevenBit, false⟩, some (Err.bufferOverflow 5 1)) :=
  mutation_reject_atomic ⟨[9], 1, .utf8, .sevenBit, false⟩ none (-1) (-1) 5 (by decide)
    (Or.inl (by decide)) (Or.inr (by decide))

/-- Counterexample to claim C3 as stated: UTF-8 is US-ASCII-compatible,
and constructing from the non-7-bit byte `0xFF` with UTF-8 as the
external encoding keeps encoding UTF-8 — it is not reassigned to raw
binary.  Only an external encoding that is exactly US-ASCII triggers the
binary reassignment.  With the default-internal encoding unset the
transcoding engine is never consulted, so the rejecting engine instance
suffices. -/
theorem external_enc_ascii_compat_counterexample :
    Enc.asciiCompat .utf8 = true ∧
    is7bit [255] = false ∧
    resEnc (rb_external_str_new_with_enc failEngine none (some [255]) 1 .utf8) = some .utf8 ∧
    ¬ Enc.utf8 = Enc.ascii8bit := by
  decide

/-- Claim C3 (amended): for bytes ingested through the external-encoding
constructors — for every transcoding engine — if the external encoding
is exactly US-ASCII and the bytes are not 7-bit-clean, the resulting
handle's encoding is ASCII-8BIT; otherwise the external encoding is
associated and, when the configured default-internal encoding is unset
or identical, the bytes are kept untouched; when it is set and
different, the associated handle is handed to the transcoding engine
(source the external encoding, target the internal one, flags 0), whose
outcome — a transcoded handle or an encoding-conversion error on
invalid sequences — is owned by the engine.  In particular the single
byte `0xFF` under external US-ASCII yields ASCII-8BIT. -/
theorem rb_external_str_with_enc_amended (eng : TranscodeEngine) (dint : Option Enc)
    (b : List Nat) (eenc : Enc) :
    (eenc = .usascii → is7bit b = false →
      resEnc (rb_external_str_new_with_enc eng dint (some b) (b.length : Int) eenc) =
        some .ascii8bit ∧
      resContent (rb_external_str_new_with_enc eng dint (some b) (b.length : Int) eenc) =
        some b) ∧
    ((eenc = .usascii → is7bit b = true) → (dint = none ∨ dint = some eenc) →
      resEnc (rb_external_str_new_with_enc eng dint (some b) (b.length : Int) eenc) =
        some eenc ∧
      resContent (rb_external_str_new_with_enc eng dint (some b) (b.length : Int) eenc) =
        some b) ∧
    ((eenc = .usascii → is7bit b = true) → ∀ i : Enc, dint = some i → ¬ i = eenc →
      rb_external_str_new_with_enc eng dint (some b) (b.length : Int) eenc =
        eng.conv ⟨b, b.length, eenc, .unknown, true⟩ eenc i 0 none) := by
  have h0 : ¬ ((b.length : Int) < 0) := by omega
  have hnn : ((b.length : Int)).toNat = b.length := by omega
  have hv : rb_external_str_new_with_enc eng dint (some b) (b.length : Int) eenc =
      rb_external_str_with_enc eng dint ⟨b, b.length, eenc, .unknown, true⟩ eenc := by
    simp only [rb_external_str_new_with_enc, rb_tainted_str_new_with_enc, rb_enc_str_new,
      rb_str_new, if_neg h0, rb_str_new_native, hnn, List.take_length]
  refine ⟨fun hus h7 => ?_, fun hok hdi => ?_, fun hok i hi hne => ?_⟩
  · have hcond : eenc = .usascii ∧
        rb_enc_str_coderange ⟨b, b.length, eenc, .unknown, true⟩ ≠ .sevenBit := by
      refine ⟨hus, ?_⟩
      simp [rb_enc_str_coderange, content, List.take_length, h7]
    rw [hv]
    simp [rb_external_str_with_enc, if_pos hcond, rb_enc_associate, resEnc, resContent,
      content, List.take_length]
  · have hcond : ¬ (eenc = .usascii ∧
        rb_enc_str_coderange ⟨b, b.length, eenc, .unknown, true⟩ ≠ .sevenBit) := by
      rintro ⟨he, hcr⟩
      apply hcr
      simp [rb_enc_str_coderange, content, List.take_length, hok he]
    rw [hv]
    simp only [rb_external_str_with_enc, if_neg hcond, rb_enc_associate, rb_str_conv_enc]
    rcases hdi with hd | hd
    · subst hd
      simp [rb_str_conv_enc_opts, resEnc, resContent, content, List.take_length]
    · subst hd
      simp [rb_str_conv_enc_opts, resEnc, resContent, content, List.take_length]
  · have hcond : ¬ (eenc = .usascii ∧
        rb_enc_str_coderange ⟨b, b.length, eenc, .unknown, true⟩ ≠ .sevenBit) := by
      rintro ⟨he, hcr⟩
      apply hcr
      simp [rb_enc_str_coderange, content, List.take_length, hok he]
    have hne' : ¬ (eenc = i) := fun hh => hne hh.symm
    rw [hv]
    subst hi
    simp [rb_external_str_with_enc, if_neg hcond, rb_enc_associate, rb_str_conv_enc,
      rb_str_conv_enc_opts, hne']

theorem rb_external_str_with_enc_amended_witness :
    resEnc (rb_external_str_new_with_enc failEngine none (some [255]) 1 .usascii) =
      some .ascii8bit ∧
    resContent (rb_external_str_new_with_enc failEngine none (some [255]) 1 .usascii) =
      some [255] :=
  (rb_external_str_with_enc_amended failEngine none [255] .usascii).1 rfl (by decide)

end TRString
